import Mathlib

/-!
# Verification of the git-scanner retrieval pipeline

A shallow embedding of `src/git_scanner.py` (class `GitExtractor`).

Python strings are modelled as `List Char` (`Str`).  The filesystem, the
created directories and the sequence of issued HTTP requests are threaded
explicitly through every operation in a `World` record.  The HTTP transport
(`requests.Session`) is an external collaborator and is modelled as a pure
function from method and URL to a response or a transport error; a run of
the scanner against a fixed server is then a pure computation.

The string helpers below reproduce the exact semantics of the Python
primitives the source uses: `str.rstrip('/')`, `str.strip()`,
`str.split(sep)`, `str.startswith`, `str.replace`, `os.path.join`,
`os.path.dirname`, `urllib.parse.urljoin` (for the URL shapes the program
produces: an absolute http(s) base and a relative path reference, which is
what every call site passes), and the three regular expressions of the
source (`^[0-9a-f]{40}$` and `P ([0-9a-f]{40}) (.+\.pack)`).
-/

set_option linter.unusedVariables false

/-- Python strings, modelled as lists of characters. -/
abbrev Str := List Char

/-- Coerce a Lean string literal to the `Str` model. -/
def toL (s : String) : Str := s.toList

/-- The characters `str.strip()` removes (ASCII whitespace; the inputs the
program strips are ASCII). -/
def isPySpace (c : Char) : Bool :=
  c = ' ' || c = '\t' || c = '\n' || c = '\r' || c = '\x0b' || c = '\x0c'

/-- Python `s.strip()`: remove leading and trailing whitespace. -/
def pyStrip (s : Str) : Str :=
  ((s.dropWhile isPySpace).reverse.dropWhile isPySpace).reverse

/-- Python `s.rstrip('/')`: remove all trailing `/` characters. -/
def rstripSlash (s : Str) : Str :=
  (s.reverse.dropWhile (fun c => c = '/')).reverse

/-- Python `s.split(c)` for a single-character separator
(e.g. `'/a//b'.split('/') = ['', 'a', '', 'b']`). -/
def splitOnChar (c : Char) : Str → List Str
  | [] => [[]]
  | x :: xs =>
    if x = c then [] :: splitOnChar c xs
    else
      match splitOnChar c xs with
      | [] => [[x]]
      | y :: ys => (x :: y) :: ys

/-- Python `sep.join(parts)` for a single-character separator. -/
def joinStrs (c : Char) : List Str → Str
  | [] => []
  | [s] => s
  | s :: t :: rest => s ++ c :: joinStrs c (t :: rest)

/-- Leftmost occurrence split: `some (before, after)` where `before` is the
part preceding the first occurrence of `sep` and `after` the part following
it; `none` when `sep` (nonempty) does not occur. -/
def splitOnFirst (sep : Str) : Str → Option (Str × Str)
  | [] => if sep = [] then some ([], []) else none
  | c :: cs =>
    if sep.isPrefixOf (c :: cs) then some ([], (c :: cs).drop sep.length)
    else
      match splitOnFirst sep cs with
      | some (a, b) => some (c :: a, b)
      | none => none

/-- Python `sub in s` (substring containment). -/
def containsStr (sep : Str) : Str → Bool
  | [] => sep.isPrefixOf []
  | c :: cs => sep.isPrefixOf (c :: cs) || containsStr sep cs

/-- Fuel-indexed worker for `splitOnStr`; structural recursion on the fuel
keeps the definition kernel-reducible. -/
def splitOnStrFuel (sep : Str) : Nat → Str → List Str
  | _, [] => [[]]
  | 0, l => [l]
  | fuel + 1, c :: cs =>
    if sep ≠ [] ∧ sep.isPrefixOf (c :: cs) then
      [] :: splitOnStrFuel sep fuel ((c :: cs).drop sep.length)
    else
      match splitOnStrFuel sep fuel cs with
      | [] => [[c]]
      | y :: ys => (c :: y) :: ys

/-- Python `s.split(sep)` for a nonempty string separator (non-overlapping,
left to right); (Python raises on an empty separator, which the program
never passes). -/
def splitOnStr (sep l : Str) : List Str := splitOnStrFuel sep (l.length + 1) l

/-- Fuel-indexed worker for `replaceStr`. -/
def replaceStrFuel (sep t : Str) : Nat → Str → Str
  | _, [] => []
  | 0, l => l
  | fuel + 1, c :: cs =>
    if sep ≠ [] ∧ sep.isPrefixOf (c :: cs) then
      t ++ replaceStrFuel sep t fuel ((c :: cs).drop sep.length)
    else
      c :: replaceStrFuel sep t fuel cs

/-- Python `s.replace(sep, t)`: replace all non-overlapping occurrences,
left to right (nonempty `sep`). -/
def replaceStr (sep t l : Str) : Str := replaceStrFuel sep t (l.length + 1) l

/-- POSIX `os.path.join(a, b)`: an absolute `b` discards `a`. -/
def osPathJoin (a b : Str) : Str :=
  if b.head? = some '/' then b
  else if a = [] ∨ a.getLast? = some '/' then a ++ b
  else a ++ '/' :: b

/-- POSIX `os.path.dirname`. -/
def osDirname (p : Str) : Str :=
  match splitOnFirst (toL ("/")) p.reverse with
  | none => []
  | some (_, rest) =>
    let head := ('/' :: rest).reverse
    if head.all (fun c => c = '/') then head else rstripSlash head

/-- The character class `[0-9a-f]` of the source's regular expressions. -/
def isHexLower (c : Char) : Bool :=
  decide (('0' ≤ c ∧ c ≤ '9') ∨ ('a' ≤ c ∧ c ≤ 'f'))

/-- The pattern `self.ref_pattern = re.compile(r'^[0-9a-f]{40}$')` applied with
`re.match`.  The program only applies it to stripped content, which cannot
end in a newline, so the `$`-matches-before-final-newline subtlety of
Python regular expressions does not arise. -/
def refPatternMatch (s : Str) : Bool :=
  decide (s.length = 40) && s.all isHexLower

/-! ## URL model

`urllib.parse.urljoin`, modelled for the shapes the program produces: the
first argument is the configured base URL (an absolute `http(s)://…` URL,
already `rstrip('/')`-ed by the constructor) and the second is a relative
path reference with no scheme, no `//` authority prefix and no query or
fragment — which is what every call site of `download_file` and
`check_git_exists` passes (`.git/...` paths, or for the reference resolver
`os.path.join('.git', ref_path)`). -/

/-- The scheme/netloc/path components of `urllib.parse.urlsplit` (query,
params and fragments do not occur in the URLs the program builds). -/
structure UrlParts where
  scheme : Str
  netloc : Str
  path : Str
deriving DecidableEq, Repr

/-- Model of `urlsplit` for an absolute URL: the part before the first `://` is the
scheme, the authority runs to the next `/`.  A string with no `://` is kept
whole as a path (the relative-reference case). -/
def urlsplitHttp (s : Str) : UrlParts :=
  match splitOnFirst (toL ("://")) s with
  | some (sch, rest) =>
    { scheme := sch
      netloc := rest.takeWhile (fun c => ¬ (c = '/'))
      path := rest.dropWhile (fun c => ¬ (c = '/')) }
  | none => { scheme := [], netloc := [], path := s }

/-- CPython's `segments[1:-1] = filter(None, segments[1:-1])`: drop empty
segments, keeping the first and last element untouched. -/
def filterMiddle : List Str → List Str
  | [] => []
  | [x] => [x]
  | x :: y :: rest =>
    match (y :: rest).getLast? with
    | some lastSeg =>
      x :: ((y :: rest).dropLast.filter (fun s => ¬ (s = []))) ++ [lastSeg]
    | none => [x]

/-- CPython's dot-segment resolution loop in `urljoin`: `..` pops the last
resolved segment (ignoring underflow), `.` is skipped, and a trailing `.`
or `..` re-appends an empty segment for the trailing slash. -/
def resolveSegs (segs : List Str) : List Str :=
  let r := segs.foldl
    (fun acc seg =>
      if seg = toL ("..") then acc.dropLast
      else if seg = toL (".") then acc
      else acc ++ [seg]) []
  match segs.getLast? with
  | some s => if s = toL ("..") ∨ s = toL (".") then r ++ [[]] else r
  | none => r

/-- Model of `urllib.parse.urlunsplit` restricted to scheme, netloc and path. -/
def urlunsplitModel (scheme netloc path : Str) : Str :=
  let url :=
    if netloc ≠ [] ∨ path.take 2 = toL ("//") then
      toL ("//") ++ netloc ++ (if path ≠ [] ∧ path.take 1 ≠ toL ("/") then '/' :: path else path)
    else path
  if scheme ≠ [] then scheme ++ ':' :: url else url

/-- Model of `urllib.parse.urljoin base rel` for a relative path reference `rel`
(CPython's algorithm: drop the base path's final segment unless it is
empty, append the reference's segments — or restart from the root when the
reference is absolute — filter redundant empty middle segments, resolve
dot segments, rejoin). -/
def urljoinModel (base rel : Str) : Str :=
  if rel = [] then base
  else
    let u := urlsplitHttp base
    let bp0 := splitOnChar '/' u.path
    let baseParts := if bp0.getLast? = some [] then bp0 else bp0.dropLast
    let segments :=
      if rel.head? = some '/' then splitOnChar '/' rel
      else filterMiddle (baseParts ++ splitOnChar '/' rel)
    let resolved := resolveSegs segments
    let rp := joinStrs '/' resolved
    let rp := if rp = [] then toL ("/") else rp
    urlunsplitModel u.scheme u.netloc rp

/-! ## Effect model

The observable state of a run: the files written (an association list,
most recent write first), the directories created, and the HTTP requests
issued in order.  The transport (`requests.Session`) is a pure function
from method and URL to a response — `HttpResp.resp status content` is the
final response after redirects (`allow_redirects=True` means `status` is
the status of the last response), `HttpResp.err` is a raised
`requests` exception.  The thread pool of `download_objects` is executed
in submission order; claims about the set and order of requests are
unaffected, while in-flight concurrency itself is outside this model. -/

/-- HTTP request method: `session.get` or `session.head`. -/
inductive Method where
  | get
  | head
deriving DecidableEq, Repr

/-- Outcome of one transport call: a response, or a raised transport
exception. -/
inductive HttpResp where
  | resp (status : Nat) (content : Str)
  | err (msg : Str)
deriving DecidableEq, Repr

/-- A server, as seen through `requests.Session`. -/
abbrev Transport := Method → Str → HttpResp

/-- Python exceptions that can escape the modelled code. -/
inductive PyExn where
  | indexError
deriving DecidableEq, Repr

deriving instance DecidableEq for Except

/-- Observable machine state of a run. -/
structure World where
  fs : List (Str × Str)
  dirs : List Str
  reqs : List (Method × Str)
deriving DecidableEq, Repr

/-- Reading a file: `os.path.exists` and `open(..., 'r')` on a path. -/
def fsLookup : List (Str × Str) → Str → Option Str
  | [], _ => none
  | (k, v) :: rest, p => if k = p then some v else fsLookup rest p

/-- Writing a file: `open(path, 'wb').write(content)`, overwriting. -/
def fsWrite (fs : List (Str × Str)) (k v : Str) : List (Str × Str) := (k, v) :: fs

/-- Directory creation `os.makedirs(p, ...)` (creation of `p` itself; intermediate parents are
not tracked — no claim depends on them). -/
def dirsAdd (dirs : List Str) (p : Str) : List Str :=
  if p ∈ dirs then dirs else p :: dirs

/-- The extractor's configuration after `GitExtractor.__init__`. -/
structure Extractor where
  url : Str
  output_dir : Str
  threads : Nat
deriving DecidableEq, Repr

/-- The bootstrap path catalog `self.git_files`. -/
def git_files : List Str :=
  [ toL (".git/HEAD")
  , toL (".git/config")
  , toL (".git/description")
  , toL (".git/info/exclude")
  , toL (".git/objects/info/packs")
  , toL (".git/refs/heads/master")
  , toL (".git/refs/heads/main")
  , toL (".git/index") ]

/-- Constructor `GitExtractor.__init__(url, output_dir, threads)`: strips trailing
slashes from the URL and creates `output_dir` and `output_dir/.git` when
absent.  No HTTP request is issued. -/
def initExtractor (url output_dir : Str) (threads : Nat) (w : World) :
    Extractor × World :=
  let e : Extractor := ⟨rstripSlash url, output_dir, threads⟩
  let w1 := if output_dir ∈ w.dirs then w else { w with dirs := output_dir :: w.dirs }
  let gd := osPathJoin output_dir (toL (".git"))
  let w2 := if gd ∈ w1.dirs then w1 else { w1 with dirs := gd :: w1.dirs }
  (e, w2)

/-- Model of `GitExtractor.download_file(path)`: GET `urljoin(self.url, path)`;
on status 200 create the parent directory and write the body to
`os.path.join(self.output_dir, path)` and return `True`; on any other
status or on a transport exception return `False` (the exception is
caught). -/
def download_file (t : Transport) (w : World) (url output_dir p : Str) :
    World × Bool :=
  let file_url := urljoinModel url p
  let local_path := osPathJoin output_dir p
  let w1 := { w with reqs := w.reqs ++ [(Method.get, file_url)] }
  match t Method.get file_url with
  | HttpResp.resp s content =>
    if s = 200 then
      ({ w1 with
          dirs := dirsAdd w1.dirs (osDirname local_path)
          fs := fsWrite w1.fs local_path content }, true)
    else (w1, false)
  | HttpResp.err _ => (w1, false)

/-- The probe loop of `check_git_exists`: HEAD each path, return `True` on
the first 200, skip failures and transport exceptions. -/
def probeLoop (t : Transport) (w : World) (url : Str) : List Str → World × Bool
  | [] => (w, false)
  | p :: ps =>
    let u := urljoinModel url p
    let w1 := { w with reqs := w.reqs ++ [(Method.head, u)] }
    match t Method.head u with
    | HttpResp.resp s _ => if s = 200 then (w1, true) else probeLoop t w1 url ps
    | HttpResp.err _ => probeLoop t w1 url ps

/-- Model of `GitExtractor.check_git_exists`: probe the first three catalog paths. -/
def check_git_exists (t : Transport) (w : World) (url : Str) : World × Bool :=
  probeLoop t w url (git_files.take 3)

/-- Sequential `download_file` over a list of paths. -/
def fetchList (t : Transport) (w : World) (url output_dir : Str) :
    List Str → World
  | [] => w
  | p :: ps => fetchList t (download_file t w url output_dir p).1 url output_dir ps

/-- Model of `GitExtractor.download_git_files`: fetch every catalog path,
best-effort. -/
def download_git_files (t : Transport) (w : World) (url output_dir : Str) : World :=
  fetchList t w url output_dir git_files

/-- Model of `GitExtractor.extract_hash_from_head`: read `.git/HEAD`; a bare
40-hex content is returned directly; `ref:`-prefixed content is split on
`'ref: '` (an `IndexError` escapes when that separator is absent, e.g.
`'ref:x'` with no space) and the named reference is read locally, after one
fetch attempt if needed; anything else yields `none`. -/
def extract_hash_from_head (t : Transport) (w : World) (url output_dir : Str) :
    Except PyExn (World × Option Str) :=
  let git_dir := osPathJoin output_dir (toL (".git"))
  let head_path := osPathJoin git_dir (toL ("HEAD"))
  match fsLookup w.fs head_path with
  | none => Except.ok (w, none)
  | some raw =>
    let content := pyStrip raw
    if (toL ("ref:")).isPrefixOf content then
      match (splitOnStr (toL ("ref: ")) content).get? 1 with
      | none => Except.error PyExn.indexError
      | some ref_path =>
        let local_ref_path := osPathJoin (osPathJoin output_dir (toL (".git"))) ref_path
        match fsLookup w.fs local_ref_path with
        | some rc => Except.ok (w, some (pyStrip rc))
        | none =>
          let w1 := (download_file t w url output_dir (osPathJoin (toL (".git")) ref_path)).1
          match fsLookup w1.fs local_ref_path with
          | some rc => Except.ok (w1, some (pyStrip rc))
          | none => Except.ok (w1, none)
    else if refPatternMatch content then Except.ok (w, some content)
    else Except.ok (w, none)

/-- The loose-object path `f".git/objects/{h[:2]}/{h[2:]}"`. -/
def objPath (h : Str) : Str :=
  toL (".git/objects/") ++ h.take 2 ++ '/' :: h.drop 2

/-- Model of `GitExtractor.download_objects(hashes)`: skip falsy strings and strings
whose length is not 40, fetch the rest.  The worker pool (sized by
`threads`) is modelled by executing the submitted fetches in submission
order; `threads` only bounds in-flight parallelism. -/
def download_objects (t : Transport) (w : World) (url output_dir : Str)
    (threads : Nat) : List Str → World
  | [] => w
  | h :: hs =>
    if h ≠ [] ∧ h.length = 40 then
      download_objects t (download_file t w url output_dir (objPath h)).1
        url output_dir threads hs
    else download_objects t w url output_dir threads hs

/-! ### The pack manifest pattern `P ([0-9a-f]{40}) (.+\.pack)`

`re.findall` semantics: scan left to right for non-overlapping matches;
`.` does not match a newline, so no match spans lines and (because the
greedy `.+\.pack` extends to the last `.pack` of the line) each line holds
at most one match — matching the whole content is the same as matching
line by line. -/

/-- End positions `e` of the line prefix `l.take e` ending in `.pack`,
at or past `lo`; the greedy group takes the largest. -/
def lastPackEnd (l : Str) (lo : Nat) : Option Nat :=
  ((List.range (l.length + 1)).filter
    (fun e => lo ≤ e && (toL (".pack")).isSuffixOf (l.take e))).getLast?

/-- Does the fixed-width part of the pack pattern (`P `, 40 hex digits,
a space) match at offset `i`? -/
def packStartOk (l : Str) (i : Nat) : Bool :=
  let t := l.drop i
  t.take 2 = toL ("P ") && decide (((t.drop 2).take 40).length = 40)
    && ((t.drop 2).take 40).all isHexLower && (t.drop 42).take 1 = toL (" ")

/-- The single leftmost-then-greedy match of the pack pattern on one line:
`(hash, pack filename)`. -/
def packMatchLine (l : Str) : Option (Str × Str) :=
  match (List.range l.length).find?
      (fun i => packStartOk l i && (lastPackEnd l (i + 49)).isSome) with
  | none => none
  | some i =>
    match lastPackEnd l (i + 49) with
    | none => none
    | some e => some (((l.drop i).drop 2).take 40, (l.drop (i + 43)).take (e - (i + 43)))

/-- Model of `self.pack_pattern.findall(content)`. -/
def packEntries (content : Str) : List (Str × Str) :=
  (splitOnChar '\n' content).filterMap packMatchLine

/-- The sequential fetch loop of `download_pack_files`: for each manifest
entry fetch the `.pack` file and then the filename with every `.pack`
replaced by `.idx`. -/
def packFetchLoop (t : Transport) (w : World) (url output_dir : Str) :
    List (Str × Str) → World
  | [] => w
  | (_, pf) :: rest =>
    let pack_path := toL (".git/objects/pack/") ++ pf
    let idx_path := toL (".git/objects/pack/") ++ replaceStr (toL (".pack")) (toL (".idx")) pf
    let w1 := (download_file t w url output_dir pack_path).1
    let w2 := (download_file t w1 url output_dir idx_path).1
    packFetchLoop t w2 url output_dir rest

/-- Model of `GitExtractor.download_pack_files`: a missing local manifest is a
no-op; otherwise fetch each advertised pack/idx pair in manifest order. -/
def download_pack_files (t : Transport) (w : World) (url output_dir : Str) : World :=
  let packs_info_path :=
    osPathJoin (osPathJoin output_dir (toL (".git"))) (toL ("objects/info/packs"))
  match fsLookup w.fs packs_info_path with
  | none => w
  | some c => packFetchLoop t w url output_dir (packEntries c)

/-- Model of `GitExtractor.execute`: probe, then (unless aborted) fetch the catalog,
resolve HEAD, fetch the resolved object when the hash is truthy, and fetch
the packs.  An exception escaping the resolver escapes `execute`. -/
def execute (t : Transport) (w : World) (e : Extractor) :
    Except PyExn (World × Bool) :=
  let res := check_git_exists t w e.url
  if res.2 then
    let w2 := download_git_files t res.1 e.url e.output_dir
    match extract_hash_from_head t w2 e.url e.output_dir with
    | Except.error ex => Except.error ex
    | Except.ok (w3, head_hash) =>
      let w4 :=
        match head_hash with
        | some h =>
          if h ≠ [] then download_objects t w3 e.url e.output_dir e.threads [h] else w3
        | none => w3
      let w5 := download_pack_files t w4 e.url e.output_dir
      Except.ok (w5, true)
  else Except.ok (res.1, false)

/-- The request trace `download_pack_files` produces for a list of
manifest entries: per entry one GET for the pack file and one for the
filename with every `.pack` replaced by `.idx`, in manifest order. -/
def packReqList (url : Str) : List (Str × Str) → List (Method × Str)
  | [] => []
  | (_, pf) :: rest =>
    (Method.get, urljoinModel url (toL (".git/objects/pack/") ++ pf)) ::
    (Method.get, urljoinModel url (toL (".git/objects/pack/") ++
      replaceStr (toL (".pack")) (toL (".idx")) pf)) ::
    packReqList url rest

/-! ## Concrete servers and worlds used by witnesses and counterexamples -/

/-- A server answering 404 to everything. -/
def tAll404 : Transport := fun _ _ => HttpResp.resp 404 []

/-- A server answering 204 No Content (a 2xx status) to everything. -/
def t204 : Transport := fun _ _ => HttpResp.resp 204 (toL ("body"))

/-- A server answering 200 to everything, with a symbolic `.git/HEAD`
pointing at `r` and a 40-character non-hexadecimal content for `.git/r`. -/
def tEvil : Transport := fun _ u =>
  if u = toL ("http://h/.git/HEAD") then HttpResp.resp 200 (toL ("ref: r"))
  else if u = toL ("http://h/.git/r") then
    HttpResp.resp 200 (toL ("gggggggggggggggggggggggggggggggggggggggg"))
  else HttpResp.resp 200 (toL ("x"))

/-- A server serving content only for the absolute-path escape target. -/
def tEscape : Transport := fun m u =>
  if m = Method.get ∧ u = toL ("http://h/e/x") then HttpResp.resp 200 (toL ("beef"))
  else HttpResp.resp 404 []

/-- The empty initial world. -/
def w0 : World := ⟨[], [], []⟩

/-- A world whose `.git/HEAD` (under output directory `o`) is symbolic with
the mandatory space missing. -/
def wNoSpace : World :=
  ⟨[(toL ("o/.git/HEAD"), toL ("ref:refs/heads/main"))], [], []⟩

/-- A world with a symbolic `.git/HEAD` pointing at `r` and a local `r`
containing 40 non-hexadecimal characters. -/
def wNonHex : World :=
  ⟨[ (toL ("o/.git/HEAD"), toL ("ref: r"))
   , (toL ("o/.git/r"), toL ("gggggggggggggggggggggggggggggggggggggggg"))], [], []⟩

/-- A world whose `.git/HEAD` names an absolute secondary path. -/
def wEscape : World := ⟨[(toL ("o/.git/HEAD"), toL ("ref: /e/x"))], [], []⟩

/-- A world with a symbolic `.git/HEAD` whose reference already resolves
locally to a bare lowercase 40-hex hash with trailing whitespace. -/
def wHexRef : World :=
  ⟨[ (toL ("o/.git/HEAD"), toL ("ref: refs/heads/main"))
   , (toL ("o/.git/refs/heads/main"),
      toL ("aaaaaaaaaaaaaaaaaaaaaaaaaaaaaaaaaaaaaaaa") ++ ['\n'])], [], []⟩

/-- A world holding a pack manifest advertising a filename with an interior
`.pack`. -/
def wPackInner : World :=
  ⟨[(toL ("o/.git/objects/info/packs"),
     toL ("P aaaaaaaaaaaaaaaaaaaaaaaaaaaaaaaaaaaaaaaa x.pack.pack"))], [], []⟩

/-- A world holding the two-entry pack manifest of the specification's
example. -/
def wPackTwo : World :=
  ⟨[(toL ("o/.git/objects/info/packs"),
     toL ("P aaaaaaaaaaaaaaaaaaaaaaaaaaaaaaaaaaaaaaaa repo.pack") ++
       '\n' :: toL ("P bbbbbbbbbbbbbbbbbbbbbbbbbbbbbbbbbbbbbbbb other.pack") ++ ['\n'])],
   [], []⟩

/-! ## General lemmas about the fetch primitives -/

/-- Every `download_file` call issues exactly one GET for
`urljoin(url, path)`, whatever the server answers. -/
theorem download_file_reqs (t : Transport) (w : World) (url od p : Str) :
    ((download_file t w url od p).1).reqs =
      w.reqs ++ [(Method.get, urljoinModel url p)] := by
  simp only [download_file]
  cases t Method.get (urljoinModel url p) with
  | resp s c => by_cases hs : s = 200 <;> simp [hs]
  | err m => simp

/-- The probe loop never writes a file or a directory, and every request
it adds is a HEAD request. -/
theorem probeLoop_preserves (t : Transport) (url : Str) :
    ∀ (ps : List Str) (w : World),
      ((probeLoop t w url ps).1).fs = w.fs ∧
      ((probeLoop t w url ps).1).dirs = w.dirs ∧
      ∀ r ∈ ((probeLoop t w url ps).1).reqs, r ∈ w.reqs ∨ r.1 = Method.head := by
  intro ps
  induction ps with
  | nil => exact fun w => ⟨rfl, rfl, fun r hr => Or.inl hr⟩
  | cons p ps ih =>
    intro w
    simp only [probeLoop]
    have hstep :
        ∀ r ∈ (w.reqs ++ [(Method.head, urljoinModel url p)]),
          r ∈ w.reqs ∨ r.1 = Method.head := by
      intro r hr
      rcases List.mem_append.mp hr with h1 | h2
      · exact Or.inl h1
      · rw [List.mem_singleton.mp h2]; exact Or.inr rfl
    cases t Method.head (urljoinModel url p) with
    | resp s c =>
      by_cases hs : s = 200
      · simp only [hs, if_pos rfl]
        exact ⟨rfl, rfl, hstep⟩
      · simp only [if_neg hs]
        refine ⟨(ih _).1, (ih _).2.1, fun r hr => ?_⟩
        rcases (ih _).2.2 r hr with h1 | h2
        · exact hstep r h1
        · exact Or.inr h2
    | err m =>
      refine ⟨(ih _).1, (ih _).2.1, fun r hr => ?_⟩
      rcases (ih _).2.2 r hr with h1 | h2
      · exact hstep r h1
      · exact Or.inr h2

/-- When the existence probe fails, `execute` stops at once with the
aborted outcome. -/
theorem execute_aborted (t : Transport) (w : World) (e : Extractor)
    (h : (check_git_exists t w e.url).2 = false) :
    execute t w e = Except.ok ((check_git_exists t w e.url).1, false) := by
  simp only [execute, h, Bool.false_eq_true, if_false]

/-- The fuel of `splitOnStrFuel` is irrelevant once it exceeds the input
length. -/
theorem splitOnStrFuel_congr (sep : Str) :
    ∀ (f1 f2 : Nat) (l : Str), l.length < f1 → l.length < f2 →
      splitOnStrFuel sep f1 l = splitOnStrFuel sep f2 l := by
  intro f1
  induction f1 with
  | zero => intro f2 l h1 h2; omega
  | succ f1 ih =>
    intro f2 l h1 h2
    cases l with
    | nil => cases f2 with | zero => omega | succ f2 => rfl
    | cons c cs =>
      cases f2 with
      | zero => omega
      | succ f2 =>
        simp only [splitOnStrFuel]
        by_cases hp : sep ≠ [] ∧ sep.isPrefixOf (c :: cs)
        · rw [if_pos hp, if_pos hp]
          have hlen : ((c :: cs).drop sep.length).length ≤ cs.length := by
            rw [List.length_drop]
            have : 1 ≤ sep.length := by
              cases sep with
              | nil => exact absurd rfl hp.1
              | cons s ss => simp
            simp only [List.length_cons]
            omega
          have h1' : cs.length < f1 := by simp only [List.length_cons] at h1; omega
          have h2' : cs.length < f2 := by simp only [List.length_cons] at h2; omega
          rw [ih f2 _ (by omega) (by omega)]
        · have h1' : cs.length < f1 := by simp only [List.length_cons] at h1; omega
          have h2' : cs.length < f2 := by simp only [List.length_cons] at h2; omega
          rw [if_neg hp, if_neg hp, ih f2 cs h1' h2']

/-- Splitting a string that starts with the separator. -/
theorem splitOnStr_append (sep rest : Str) (hsep : sep ≠ []) :
    splitOnStr sep (sep ++ rest) = [] :: splitOnStr sep rest := by
  obtain ⟨s, ss, rfl⟩ : ∃ s ss, sep = s :: ss := by
    cases sep with
    | nil => exact absurd rfl hsep
    | cons s ss => exact ⟨s, ss, rfl⟩
  show splitOnStrFuel _ (((s :: ss) ++ rest).length + 1) ((s :: ss) ++ rest) = _
  have hcons : (s :: ss) ++ rest = s :: (ss ++ rest) := rfl
  rw [hcons]
  simp only [splitOnStrFuel]
  rw [if_pos ⟨hsep, List.isPrefixOf_iff_prefix.mpr (by rw [← hcons]; exact List.prefix_append _ _)⟩]
  have hdrop : (s :: (ss ++ rest)).drop (s :: ss).length = rest := by
    rw [← hcons]; exact List.drop_left _ _
  rw [hdrop]
  congr 1
  exact splitOnStrFuel_congr _ _ _ _ (by simp; omega) (by omega)

/-- A string not containing the separator is returned whole by `split`. -/
theorem splitOnStr_of_not_contains (sep : Str) :
    ∀ (l : Str), containsStr sep l = false → splitOnStr sep l = [l] := by
  have main : ∀ (f : Nat) (l : Str), l.length < f → containsStr sep l = false →
      splitOnStrFuel sep f l = [l] := by
    intro f
    induction f with
    | zero => intro l h; omega
    | succ f ih =>
      intro l hf hc
      cases l with
      | nil => rfl
      | cons c cs =>
        simp only [containsStr, Bool.or_eq_false_iff] at hc
        simp only [splitOnStrFuel]
        rw [if_neg (by intro hand; rw [hand.2] at hc; exact Bool.noConfusion hc.1)]
        rw [ih cs (by simp at hf; omega) hc.2]
  intro l hc
  exact main (l.length + 1) l (by omega) hc

/-- Every request `download_objects` adds is a GET for the object path of
one of the submitted hashes, and only hashes that are nonempty and of
length exactly 40 are submitted. -/
theorem download_objects_reqs (t : Transport) (url od : Str) (threads : Nat) :
    ∀ (hashes : List Str) (w : World) (r : Method × Str),
      r ∈ (download_objects t w url od threads hashes).reqs →
      r ∈ w.reqs ∨ ∃ h, h ∈ hashes ∧ h ≠ [] ∧ h.length = 40 ∧
        r = (Method.get, urljoinModel url (objPath h)) := by
  intro hashes
  induction hashes with
  | nil => exact fun w r hr => Or.inl hr
  | cons h hs ih =>
    intro w r hr
    by_cases hcond : h ≠ [] ∧ h.length = 40
    · rw [download_objects, if_pos hcond] at hr
      rcases ih _ r hr with h1 | ⟨g, hg, hg1, hg2, hg3⟩
      · rw [download_file_reqs] at h1
        rcases List.mem_append.mp h1 with h2 | h3
        · exact Or.inl h2
        · exact Or.inr ⟨h, List.mem_cons_self _ _, hcond.1, hcond.2,
            List.mem_singleton.mp h3⟩
      · exact Or.inr ⟨g, List.mem_cons_of_mem _ hg, hg1, hg2, hg3⟩
    · rw [download_objects, if_neg hcond] at hr
      rcases ih _ r hr with h1 | ⟨g, hg, hg1, hg2, hg3⟩
      · exact Or.inl h1
      · exact Or.inr ⟨g, List.mem_cons_of_mem _ hg, hg1, hg2, hg3⟩

/-- The pack fetch loop appends exactly the pack/idx request pairs, in
manifest order. -/
theorem packFetchLoop_reqs (t : Transport) (url od : Str) :
    ∀ (entries : List (Str × Str)) (w : World),
      (packFetchLoop t w url od entries).reqs = w.reqs ++ packReqList url entries := by
  intro entries
  induction entries with
  | nil => intro w; simp [packFetchLoop, packReqList]
  | cons e rest ih =>
    intro w
    obtain ⟨eh, pf⟩ := e
    simp only [packFetchLoop, packReqList]
    rw [ih, download_file_reqs, download_file_reqs]
    simp

/-! ## Lemmas for the URL-construction analysis -/

theorem splitOnChar_ne_nil (c : Char) : ∀ (l : Str), splitOnChar c l ≠ [] := by
  intro l
  cases l with
  | nil => simp [splitOnChar]
  | cons x xs =>
    simp only [splitOnChar]
    by_cases hx : x = c
    · rw [if_pos hx]; simp
    · rw [if_neg hx]
      cases splitOnChar c xs <;> simp

theorem joinStrs_cons_cons (c : Char) (x : Str) (y : Str) (ys : List Str) :
    joinStrs c ((x ++ y) :: ys) = x ++ joinStrs c (y :: ys) := by
  cases ys with
  | nil => rfl
  | cons z zs => simp [joinStrs]

/-- Joining with `'/'` undoes `split('/')`. -/
theorem joinStrs_splitOnChar (c : Char) : ∀ (l : Str), joinStrs c (splitOnChar c l) = l := by
  intro l
  induction l with
  | nil => rfl
  | cons x xs ih =>
    simp only [splitOnChar]
    by_cases hx : x = c
    · rw [if_pos hx, hx]
      cases hs : splitOnChar c xs with
      | nil => exact absurd hs (splitOnChar_ne_nil c xs)
      | cons y ys =>
        rw [hs] at ih
        show c :: joinStrs c (y :: ys) = c :: xs
        rw [ih]
    · rw [if_neg hx]
      cases hs : splitOnChar c xs with
      | nil => exact absurd hs (splitOnChar_ne_nil c xs)
      | cons y ys =>
        rw [hs] at ih
        show joinStrs c ((x :: y) :: ys) = x :: xs
        have hxy : (x :: y) = [x] ++ y := rfl
        rw [hxy, joinStrs_cons_cons]
        simp [ih]

/-- Dot-segment resolution is the identity on segment lists without dot
segments. -/
theorem resolveSegs_id (segs : List Str)
    (h : ∀ s ∈ segs, ¬ s = toL (".") ∧ ¬ s = toL ("..")) :
    resolveSegs segs = segs := by
  have fold : ∀ (l : List Str) (acc : List Str),
      (∀ s ∈ l, ¬ s = toL (".") ∧ ¬ s = toL ("..")) →
      l.foldl (fun acc seg =>
        if seg = toL ("..") then acc.dropLast
        else if seg = toL (".") then acc
        else acc ++ [seg]) acc = acc ++ l := by
    intro l
    induction l with
    | nil => intro acc _; simp
    | cons s ss ih =>
      intro acc hl
      have hs := hl s (List.mem_cons_self _ _)
      simp only [List.foldl_cons, if_neg hs.2, if_neg hs.1]
      rw [ih _ (fun x hx => hl x (List.mem_cons_of_mem _ hx))]
      simp
  simp only [resolveSegs]
  rw [fold segs [] h]
  cases hLast : segs.getLast? with
  | none => simp
  | some s =>
    have hmem : s ∈ segs := List.mem_of_getLast?_eq_some hLast
    show (if s = toL ("..") ∨ s = toL (".") then ([] ++ segs) ++ [[]] else [] ++ segs) = segs
    rw [if_neg (not_or.mpr ⟨(h s hmem).2, (h s hmem).1⟩)]
    simp

/-- Stripping the single trailing slash of a slash-terminated URL whose
last real character is not a slash. -/
theorem rstripSlash_concat (l : Str) (hl : l ≠ []) (h : l.getLast? ≠ some '/') :
    rstripSlash (l ++ toL ("/")) = l := by
  have hrev1 : (l ++ toL ("/")).reverse = '/' :: l.reverse := by simp [toL]
  have hDrop : l.reverse.dropWhile (fun c => decide (c = '/')) = l.reverse := by
    cases hrev : l.reverse with
    | nil => rfl
    | cons a as =>
      have ha : ¬ a = '/' := by
        intro hEq
        exact h (by rw [← List.head?_reverse, hrev, hEq]; rfl)
      rw [List.dropWhile_cons, if_neg (by simp only [decide_eq_true_eq]; exact ha)]
  simp only [rstripSlash, hrev1, List.dropWhile_cons]
  rw [if_pos (by simp), hDrop, List.reverse_reverse]

/-- The `://` split of an http URL. -/
theorem splitOnFirst_http (n : Str) :
    splitOnFirst (toL ("://")) ('h' :: 't' :: 't' :: 'p' :: ':' :: '/' :: '/' :: n) =
      some (['h', 't', 't', 'p'], n) := by
  have hsep : toL ("://") = [':', '/', '/'] := by decide
  rw [hsep]
  simp [splitOnFirst, List.isPrefixOf_cons₂]

/-- Splitting an http URL whose authority has no slash: everything after
`://` is the netloc and the path is empty. -/
theorem urlsplitHttp_hostOnly (n : Str) (hn : ∀ c ∈ n, ¬ c = '/') :
    urlsplitHttp (toL ("http://") ++ n) =
      { scheme := toL ("http"), netloc := n, path := [] } := by
  have hlist : toL ("http://") ++ n = 'h' :: 't' :: 't' :: 'p' :: ':' :: '/' :: '/' :: n := by
    have hlit : toL ("http://") = ['h', 't', 't', 'p', ':', '/', '/'] := by decide
    rw [hlit]; rfl
  have hlit2 : toL ("http") = ['h', 't', 't', 'p'] := by decide
  rw [urlsplitHttp, hlist, splitOnFirst_http]
  show UrlParts.mk ['h', 't', 't', 'p'] (n.takeWhile (fun c => decide (¬ c = '/')))
      (n.dropWhile (fun c => decide (¬ c = '/'))) =
    UrlParts.mk (toL ("http")) n []
  rw [List.takeWhile_eq_self_iff.mpr (fun x hx => by simpa using hn x hx),
    List.dropWhile_eq_nil_iff.mpr (fun x hx => by simpa using hn x hx), hlit2]

/-- The middle filter keeps a segment list of the form
`"" :: nonempty segments` intact. -/
theorem filterMiddle_id (q : Str) (qs : List Str)
    (h : ∀ s ∈ q :: qs, ¬ s = []) :
    filterMiddle ([] :: q :: qs) = [] :: q :: qs := by
  simp only [filterMiddle]
  cases hL : (q :: qs).getLast? with
  | none => simp at hL
  | some lastSeg =>
    have hfilter : (q :: qs).dropLast.filter (fun s => decide (¬ s = [])) =
        (q :: qs).dropLast :=
      List.filter_eq_self.mpr
        (fun a ha => by simpa using h a (List.dropLast_subset _ ha))
    show ([] :: ((q :: qs).dropLast.filter (fun s => decide (¬ s = [])))) ++ [lastSeg] =
      [] :: q :: qs
    rw [hfilter, List.cons_append, List.dropLast_append_getLast? _ hL]

/-- For a base URL of the shape `http://<host>` (no path component),
`urljoin` against a clean relative path is plain slash-concatenation. -/
theorem urljoin_concat (n p : Str) (hn0 : n ≠ []) (hn : ∀ c ∈ n, ¬ c = '/')
    (hp : ∀ s ∈ splitOnChar '/' p, ¬ s = [] ∧ ¬ s = toL (".") ∧ ¬ s = toL ("..")) :
    urljoinModel (toL ("http://") ++ n) p = (toL ("http://") ++ n) ++ '/' :: p := by
  have hpnil : p ≠ [] := by
    intro hE
    subst hE
    exact (hp [] (by simp [splitOnChar])).1 rfl
  obtain ⟨c0, p', rfl⟩ : ∃ c0 p', p = c0 :: p' := by
    cases p with
    | nil => exact absurd rfl hpnil
    | cons a b => exact ⟨a, b, rfl⟩
  have hc0 : ¬ c0 = '/' := by
    intro hE
    subst hE
    exact (hp [] (by simp [splitOnChar])).1 rfl
  obtain ⟨q, qs, hqs⟩ : ∃ q qs, splitOnChar '/' (c0 :: p') = q :: qs := by
    cases hs : splitOnChar '/' (c0 :: p') with
    | nil => exact absurd hs (splitOnChar_ne_nil _ _)
    | cons q qs => exact ⟨q, qs, rfl⟩
  have hmem : ∀ s ∈ ([] : Str) :: q :: qs, ¬ s = toL (".") ∧ ¬ s = toL ("..") := by
    intro s hs
    rcases List.mem_cons.mp hs with hs0 | hs1
    · subst hs0
      exact ⟨by decide, by decide⟩
    · have := hp s (by rw [hqs]; exact hs1)
      exact ⟨this.2.1, this.2.2⟩
  have hmem2 : ∀ s ∈ q :: qs, ¬ s = [] := by
    intro s hs
    exact (hp s (by rw [hqs]; exact hs)).1
  simp only [urljoinModel]
  rw [if_neg (by simp : ¬ (c0 :: p' : Str) = [])]
  rw [urlsplitHttp_hostOnly n hn, hqs]
  simp only [List.head?_cons]
  rw [if_neg (by simp [hc0] : ¬ (some c0 = some '/'))]
  show urlunsplitModel (toL ("http")) n
      (if joinStrs '/' (resolveSegs (filterMiddle ([] :: q :: qs))) = [] then toL ("/")
       else joinStrs '/' (resolveSegs (filterMiddle ([] :: q :: qs)))) =
    (toL ("http://") ++ n) ++ '/' :: (c0 :: p')
  rw [filterMiddle_id q qs hmem2, resolveSegs_id _ hmem]
  have hjoin : joinStrs '/' ([] :: q :: qs) = '/' :: (c0 :: p') := by
    show [] ++ '/' :: joinStrs '/' (q :: qs) = '/' :: (c0 :: p')
    rw [List.nil_append, ← hqs, joinStrs_splitOnChar]
  rw [hjoin]
  rw [if_neg (by simp : ¬ ('/' :: (c0 :: p') : Str) = [])]
  simp only [urlunsplitModel]
  rw [if_pos (show ¬ toL ("http") = [] from by decide)]
  rw [if_pos (show n ≠ [] ∨ ('/' :: c0 :: p' : Str).take 2 = toL ("//") from Or.inl hn0)]
  rw [if_neg (show ¬ (('/' :: c0 :: p' : Str) ≠ [] ∧
      ('/' :: c0 :: p' : Str).take 1 ≠ toL ("/")) from by
    intro hand
    exact hand.2 (show ('/' :: c0 :: p' : Str).take 1 = toL ("/") from by
      rw [show toL ("/") = ['/'] from by decide]
      rfl))]
  have h1 : toL ("http://") = ['h', 't', 't', 'p', ':', '/', '/'] := by decide
  have h2 : toL ("http") = ['h', 't', 't', 'p'] := by decide
  have h3 : toL ("//") = ['/', '/'] := by decide
  rw [h1, h2, h3]
  simp

/-- What the constructor does: both directories exist afterwards, nothing
else of the world changes, and the stored URL is the stripped one. -/
theorem initExtractor_spec (url od : Str) (threads : Nat) (w : World) :
    od ∈ ((initExtractor url od threads w).2).dirs ∧
    osPathJoin od (toL (".git")) ∈ ((initExtractor url od threads w).2).dirs ∧
    ((initExtractor url od threads w).2).reqs = w.reqs ∧
    ((initExtractor url od threads w).2).fs = w.fs ∧
    (initExtractor url od threads w).1 = ⟨rstripSlash url, od, threads⟩ := by
  simp only [initExtractor]
  split_ifs with h1 h2 h2 <;>
    simp_all [List.mem_cons]

/-! ## Claim theorems -/

/-- C1, counterexample: the claim that every hash submitted to an object
fetch consists of 40 lowercase hexadecimal characters is false.  A
symbolic HEAD pointing at a local reference file containing forty `g`
characters resolves (without any shape validation) to that string, and
`download_objects` then submits a GET for
`.git/objects/gg/<38 more g>` even though `g` is not a hexadecimal digit:
the length-40 filter is the only check. -/
theorem C1_counterexample :
    extract_hash_from_head tAll404 wNonHex (toL ("http://h")) (toL ("o")) =
      Except.ok (wNonHex, some (toL ("gggggggggggggggggggggggggggggggggggggggg"))) ∧
    (download_objects tAll404 wNonHex (toL ("http://h")) (toL ("o")) 10
        [toL ("gggggggggggggggggggggggggggggggggggggggg")]).reqs =
      [(Method.get,
        toL ("http://h/.git/objects/gg/gggggggggggggggggggggggggggggggggggggg"))] ∧
    ((toL ("gggggggggggggggggggggggggggggggggggggggg")).all isHexLower) = false := by
  decide

/-- C1, amended: whenever `download_objects` submits a fetch for a string
`h`, `h` is nonempty and has exactly 40 characters (the only validation
performed at that point); hexadecimal shape is not re-checked there, so a
length-40 non-hex string obtained via symbolic-pointer resolution is
fetched. -/
theorem C1_amended (t : Transport) (url od : Str) (threads : Nat)
    (hashes : List Str) (w : World) (r : Method × Str)
    (hr : r ∈ (download_objects t w url od threads hashes).reqs) :
    r ∈ w.reqs ∨ ∃ h, h ∈ hashes ∧ h ≠ [] ∧ h.length = 40 ∧
      r = (Method.get, urljoinModel url (objPath h)) :=
  download_objects_reqs t url od threads hashes w r hr

/-- C1, witness for the amended theorem at a concrete input. -/
theorem C1_amended_witness :
    (Method.get, toL ("http://h/.git/objects/gg/gggggggggggggggggggggggggggggggggggggg")) ∈
      w0.reqs ∨
    ∃ h, h ∈ [toL ("gggggggggggggggggggggggggggggggggggggggg")] ∧ h ≠ [] ∧ h.length = 40 ∧
      (Method.get, toL ("http://h/.git/objects/gg/gggggggggggggggggggggggggggggggggggggg")) =
        (Method.get, urljoinModel (toL ("http://h")) (objPath h)) :=
  C1_amended tAll404 (toL ("http://h")) (toL ("o")) 10
    [toL ("gggggggggggggggggggggggggggggggggggggggg")] w0
    (Method.get, toL ("http://h/.git/objects/gg/gggggggggggggggggggggggggggggggggggggg"))
    (by decide)

/-- C2, counterexample: the request URL is not `base_url + relative_path`
when the base URL's path component has a segment.  For configured base
`http://h/a/` (stored stripped as `http://h/a`), the GET for `.git/HEAD`
goes to `http://h/.git/HEAD` — `urljoin` drops the final path segment —
not to `http://h/a/.git/HEAD`. -/
theorem C2_counterexample :
    ((download_file tAll404 w0 (rstripSlash (toL ("http://h/a/"))) (toL ("o"))
        (toL (".git/HEAD"))).1).reqs =
      [(Method.get, toL ("http://h/.git/HEAD"))] ∧
    ¬ toL ("http://h/.git/HEAD") = toL ("http://h/a/") ++ toL (".git/HEAD") := by
  decide

/-- C2, amended: for a configured base URL of the shape
`http://<host>/` whose path component is empty (no path segments), the
request URL of every fetch equals the base URL concatenated with the
relative path; for base URLs with path segments `urljoin` drops the final
segment, so plain concatenation fails there. -/
theorem C2_amended (t : Transport) (w : World) (od n p : Str)
    (hn0 : n ≠ []) (hn : ∀ c ∈ n, ¬ c = '/')
    (hp : ∀ s ∈ splitOnChar '/' p, ¬ s = [] ∧ ¬ s = toL (".") ∧ ¬ s = toL ("..")) :
    ((download_file t w (rstripSlash (toL ("http://") ++ n ++ toL ("/"))) od p).1).reqs =
      w.reqs ++ [(Method.get, (toL ("http://") ++ n ++ toL ("/")) ++ p)] := by
  obtain ⟨a, as, hna⟩ : ∃ (a : Char) (as : Str), n = as.reverse ++ [a] := by
    cases hrev : n.reverse with
    | nil => exact absurd (by simpa using hrev) hn0
    | cons a as =>
      exact ⟨a, as, by rw [← List.reverse_reverse n, hrev, List.reverse_cons]⟩
  have hbase : rstripSlash (toL ("http://") ++ n ++ toL ("/")) = toL ("http://") ++ n := by
    apply rstripSlash_concat
    · intro hE
      exact absurd (List.append_eq_nil.mp hE).1 (by decide)
    · have hmem : a ∈ n := by rw [hna]; simp
      have hlast : (toL ("http://") ++ n).getLast? = some a := by
        rw [hna, ← List.append_assoc, List.getLast?_concat]
      intro hE
      rw [hlast] at hE
      exact hn a hmem (Option.some.inj hE)
  rw [download_file_reqs, hbase, urljoin_concat n p hn0 hn hp]
  have hslash : toL ("/") = ['/'] := by decide
  simp [hslash]

/-- C2, witness for the amended theorem at a concrete input. -/
theorem C2_amended_witness :
    ((download_file tAll404 w0
        (rstripSlash (toL ("http://") ++ toL ("h") ++ toL ("/"))) (toL ("o"))
        (toL (".git/HEAD"))).1).reqs =
      w0.reqs ++
        [(Method.get, (toL ("http://") ++ toL ("h") ++ toL ("/")) ++ toL (".git/HEAD"))] :=
  C2_amended tAll404 w0 (toL ("o")) (toL ("h")) (toL (".git/HEAD"))
    (by decide) (by decide) (by decide)

/-- C3, counterexample: the claim ties success to any 2xx-equivalent
status, but the code tests `status_code == 200` exactly: a 204 No Content
response (a 2xx success status) yields a failure outcome and no file
write. -/
theorem C3_counterexample :
    t204 Method.get (urljoinModel (toL ("http://h")) (toL (".git/HEAD"))) =
      HttpResp.resp 204 (toL ("body")) ∧
    200 ≤ 204 ∧ 204 < 300 ∧
    (download_file t204 w0 (toL ("http://h")) (toL ("o")) (toL (".git/HEAD"))).2 = false ∧
    ((download_file t204 w0 (toL ("http://h")) (toL ("o")) (toL (".git/HEAD"))).1).fs =
      w0.fs := by
  decide

/-- C3, amended: `download_file` reports success if and only if the final
HTTP status is exactly 200; on status 200 it writes the full response body
to `os.path.join(output_dir, path)`, and on any other status or transport
exception it writes nothing, raises nothing and returns a failure
outcome. -/
theorem C3_amended (t : Transport) (w : World) (url od p : Str) :
    ((download_file t w url od p).2 = true ↔
      ∃ c, t Method.get (urljoinModel url p) = HttpResp.resp 200 c) ∧
    (∀ c, t Method.get (urljoinModel url p) = HttpResp.resp 200 c →
      ((download_file t w url od p).1).fs = fsWrite w.fs (osPathJoin od p) c) ∧
    ((download_file t w url od p).2 = false → ((download_file t w url od p).1).fs = w.fs) := by
  cases ht : t Method.get (urljoinModel url p) with
  | resp s c =>
    by_cases hs : s = 200
    · subst hs
      simp [download_file, ht]
    · simp [download_file, ht, hs]
  | err m => simp [download_file, ht]

/-- C3, witness for the amended theorem at a concrete input (status 204:
failure outcome, filesystem unchanged). -/
theorem C3_amended_witness :
    ((download_file t204 w0 (toL ("http://h")) (toL ("o")) (toL (".git/x"))).1).fs =
      w0.fs :=
  (C3_amended t204 w0 (toL ("http://h")) (toL ("o")) (toL (".git/x"))).2.2 (by decide)

/-- C4 (code bug): on HEAD content `ref:refs/heads/main` — starting with
`ref:` but lacking the space — `content.split('ref: ')[1]` raises an
uncaught `IndexError` instead of returning nothing: the resolver lets an
exception escape, contradicting the specified error-handling policy. -/
theorem C4_bug :
    extract_hash_from_head tAll404 wNoSpace (toL ("http://h")) (toL ("o")) =
      Except.error PyExn.indexError := by
  decide

/-- C5: a pointer file whose stripped content is `ref: <p>` (with `p`
containing no further `'ref: '` occurrence, as any real reference path
does) and whose referenced file `.git/<p>` already exists locally
containing a bare 40-hex hash with surrounding whitespace resolves to
that hash trimmed, with the world unchanged — in particular no network
fetch is issued for the secondary path. -/
theorem C5_theorem (t : Transport) (w : World) (url od p hc rc h : Str)
    (hhead : fsLookup w.fs
      (osPathJoin (osPathJoin od (toL (".git"))) (toL ("HEAD"))) = some hc)
    (hstrip : pyStrip hc = toL ("ref: ") ++ p)
    (hnc : containsStr (toL ("ref: ")) p = false)
    (href : fsLookup w.fs (osPathJoin (osPathJoin od (toL (".git"))) p) = some rc)
    (hrc : pyStrip rc = h) (hlen : h.length = 40) (hhex : h.all isHexLower = true) :
    extract_hash_from_head t w url od = Except.ok (w, some h) := by
  have hpre : (toL ("ref:")).isPrefixOf (toL ("ref: ") ++ p) = true := by
    have hr1 : toL ("ref: ") = toL ("ref:") ++ [' '] := by decide
    rw [hr1, List.append_assoc]
    exact List.isPrefixOf_iff_prefix.mpr (List.prefix_append _ _)
  have hsplit : splitOnStr (toL ("ref: ")) (toL ("ref: ") ++ p) = [] :: [p] := by
    rw [splitOnStr_append _ _ (by decide), splitOnStr_of_not_contains _ _ hnc]
  simp only [extract_hash_from_head, hhead, hstrip, hpre, if_true, hsplit,
    List.get?, href, hrc]

/-- C5, witness: `HEAD` pointing at `refs/heads/main`, the reference file
present locally with a newline-terminated all-`a` hash. -/
theorem C5_witness :
    extract_hash_from_head tAll404 wHexRef (toL ("http://h")) (toL ("o")) =
      Except.ok (wHexRef, some (toL ("aaaaaaaaaaaaaaaaaaaaaaaaaaaaaaaaaaaaaaaa"))) :=
  C5_theorem tAll404 wHexRef (toL ("http://h")) (toL ("o"))
    (toL ("refs/heads/main")) (toL ("ref: refs/heads/main"))
    (toL ("aaaaaaaaaaaaaaaaaaaaaaaaaaaaaaaaaaaaaaaa") ++ ['\n'])
    (toL ("aaaaaaaaaaaaaaaaaaaaaaaaaaaaaaaaaaaaaaaa"))
    (by decide) (by decide) (by decide) (by decide) (by decide) (by decide) (by decide)

/-- C6: when the existence probe answers false, `execute` reports the
aborted outcome at once: the filesystem is untouched and every request
issued up to that point is a header-only (HEAD) probe — no GET is
issued and no file is written. -/
theorem C6_theorem (t : Transport) (w : World) (e : Extractor)
    (habort : (check_git_exists t w e.url).2 = false) :
    execute t w e = Except.ok ((check_git_exists t w e.url).1, false) ∧
    ((check_git_exists t w e.url).1).fs = w.fs ∧
    ∀ r ∈ ((check_git_exists t w e.url).1).reqs, r ∈ w.reqs ∨ r.1 = Method.head :=
  ⟨execute_aborted t w e habort, (probeLoop_preserves t e.url (git_files.take 3) w).1,
    (probeLoop_preserves t e.url (git_files.take 3) w).2.2⟩

/-- C6, witness: a server answering 404 everywhere aborts the run. -/
theorem C6_witness :
    execute tAll404 w0 ⟨toL ("http://h"), toL ("o"), 10⟩ =
      Except.ok ((check_git_exists tAll404 w0 (toL ("http://h"))).1, false) :=
  (C6_theorem tAll404 w0 ⟨toL ("http://h"), toL ("o"), 10⟩ (by decide)).1

/-- C7, counterexample: the index filename is derived with
`str.replace('.pack', '.idx')`, which replaces every occurrence, not only
the suffix: a manifest advertising `x.pack.pack` triggers a fetch of
`x.idx.idx`, not of the suffix-substituted `x.pack.idx` the claim
names. -/
theorem C7_counterexample :
    (download_pack_files tAll404 wPackInner (toL ("http://h")) (toL ("o"))).reqs =
      [ (Method.get, toL ("http://h/.git/objects/pack/x.pack.pack"))
      , (Method.get, toL ("http://h/.git/objects/pack/x.idx.idx"))] ∧
    ¬ toL ("x.idx.idx") = toL ("x.pack.idx") := by
  decide

/-- C7, amended: for every locally present manifest content,
`download_pack_files` fetches, in manifest order, exactly one `.pack` file
and one index file per matching entry, the index filename being the pack
filename with every occurrence of `.pack` replaced by `.idx` (this equals
suffix substitution whenever `.pack` occurs only as the suffix). -/
theorem C7_amended (t : Transport) (w : World) (url od c : Str)
    (hm : fsLookup w.fs (osPathJoin (osPathJoin od (toL (".git")))
      (toL ("objects/info/packs"))) = some c) :
    (download_pack_files t w url od).reqs = w.reqs ++ packReqList url (packEntries c) := by
  simp only [download_pack_files, hm]
  exact packFetchLoop_reqs t url od (packEntries c) w

/-- C7, witness: the specification's two-entry example manifest yields
exactly two pack fetches and two index fetches named `repo.idx` and
`other.idx`. -/
theorem C7_amended_witness :
    (download_pack_files tAll404 wPackTwo (toL ("http://h")) (toL ("o"))).reqs =
      [ (Method.get, toL ("http://h/.git/objects/pack/repo.pack"))
      , (Method.get, toL ("http://h/.git/objects/pack/repo.idx"))
      , (Method.get, toL ("http://h/.git/objects/pack/other.pack"))
      , (Method.get, toL ("http://h/.git/objects/pack/other.idx"))] :=
  Eq.trans
    (C7_amended tAll404 wPackTwo (toL ("http://h")) (toL ("o"))
      (toL ("P aaaaaaaaaaaaaaaaaaaaaaaaaaaaaaaaaaaaaaaa repo.pack") ++
        '\n' :: toL ("P bbbbbbbbbbbbbbbbbbbbbbbbbbbbbbbbbbbbbbbb other.pack") ++ ['\n'])
      (by decide))
    (by decide)

/-- C9: the write path is the unsanitized `os.path.join` of the output
root with the server-supplied path.  With HEAD content `ref: /e/x` the
resolver fetches and then reads back the absolute path `/e/x` — the join
collapses to the absolute path, which does not lie under the output root
`o` — so file writes are not confined to the output root. -/
theorem C9_theorem :
    osPathJoin (toL ("o")) (osPathJoin (toL (".git")) (toL ("/e/x"))) = toL ("/e/x") ∧
    (extract_hash_from_head tEscape wEscape (toL ("http://h")) (toL ("o"))).toOption.map
        (fun r => (fsLookup r.1.fs (toL ("/e/x")), r.2)) =
      some (some (toL ("beef")), some (toL ("beef"))) ∧
    (toL ("o/")).isPrefixOf (toL ("/e/x")) = false := by
  decide

/-- C10: the constructor creates `output_dir` and `output_dir/.git`
(when absent) while issuing no HTTP request; a run whose existence probe
fails still terminates with the aborted outcome and both directories
remain present. -/
theorem C10_theorem (w : World) (url od : Str) (threads : Nat) (t : Transport)
    (habort : (check_git_exists t (initExtractor url od threads w).2
      (rstripSlash url)).2 = false) :
    od ∈ ((initExtractor url od threads w).2).dirs ∧
    osPathJoin od (toL (".git")) ∈ ((initExtractor url od threads w).2).dirs ∧
    ((initExtractor url od threads w).2).reqs = w.reqs ∧
    ((initExtractor url od threads w).2).fs = w.fs ∧
    execute t (initExtractor url od threads w).2 (initExtractor url od threads w).1 =
      Except.ok ((check_git_exists t (initExtractor url od threads w).2
        (rstripSlash url)).1, false) ∧
    od ∈ ((check_git_exists t (initExtractor url od threads w).2
      (rstripSlash url)).1).dirs ∧
    osPathJoin od (toL (".git")) ∈ ((check_git_exists t (initExtractor url od threads w).2
      (rstripSlash url)).1).dirs := by
  obtain ⟨h1, h2, h3, h4, h5⟩ := initExtractor_spec url od threads w
  have hurl : ((initExtractor url od threads w).1).url = rstripSlash url := by rw [h5]
  have hdirs : ((check_git_exists t (initExtractor url od threads w).2
      (rstripSlash url)).1).dirs = ((initExtractor url od threads w).2).dirs :=
    (probeLoop_preserves t (rstripSlash url) (git_files.take 3)
      (initExtractor url od threads w).2).2.1
  refine ⟨h1, h2, h3, h4, ?_, ?_, ?_⟩
  · have := execute_aborted t (initExtractor url od threads w).2
      (initExtractor url od threads w).1 (by rw [hurl]; exact habort)
    rw [hurl] at this
    exact this
  · rw [hdirs]; exact h1
  · rw [hdirs]; exact h2

/-- C10, witness at a concrete aborted run. -/
theorem C10_witness :
    toL ("o") ∈ ((initExtractor (toL ("http://h")) (toL ("o")) 10 w0).2).dirs ∧
    osPathJoin (toL ("o")) (toL (".git")) ∈
      ((initExtractor (toL ("http://h")) (toL ("o")) 10 w0).2).dirs ∧
    ((initExtractor (toL ("http://h")) (toL ("o")) 10 w0).2).reqs = w0.reqs ∧
    ((initExtractor (toL ("http://h")) (toL ("o")) 10 w0).2).fs = w0.fs ∧
    execute tAll404 (initExtractor (toL ("http://h")) (toL ("o")) 10 w0).2
        (initExtractor (toL ("http://h")) (toL ("o")) 10 w0).1 =
      Except.ok ((check_git_exists tAll404
        (initExtractor (toL ("http://h")) (toL ("o")) 10 w0).2
        (rstripSlash (toL ("http://h")))).1, false) ∧
    toL ("o") ∈ ((check_git_exists tAll404
      (initExtractor (toL ("http://h")) (toL ("o")) 10 w0).2
      (rstripSlash (toL ("http://h")))).1).dirs ∧
    osPathJoin (toL ("o")) (toL (".git")) ∈ ((check_git_exists tAll404
      (initExtractor (toL ("http://h")) (toL ("o")) 10 w0).2
      (rstripSlash (toL ("http://h")))).1).dirs :=
  C10_theorem w0 (toL ("http://h")) (toL ("o")) 10 tAll404 (by decide)

/-! ## Model validation

Spot checks pinning the embedded Python primitives to the behaviour of
the reference implementations (verified against CPython) on concrete
inputs. -/

/-- Validation of the `urljoin` model on concrete inputs. -/
theorem urljoinModel_validation :
    urljoinModel (toL ("http://h")) (toL (".git/HEAD")) = toL ("http://h/.git/HEAD") ∧
    urljoinModel (toL ("http://h/a")) (toL (".git/HEAD")) = toL ("http://h/.git/HEAD") ∧
    urljoinModel (toL ("http://h/a/b")) (toL (".git/HEAD")) = toL ("http://h/a/.git/HEAD") ∧
    urljoinModel (toL ("http://h")) (toL ("/e/x")) = toL ("http://h/e/x") ∧
    urljoinModel (toL ("http://h/a")) (toL ("/e/x")) = toL ("http://h/e/x") ∧
    urljoinModel (toL ("http://h")) (toL (".git/../../x")) = toL ("http://h/x") ∧
    urljoinModel (toL ("http://h/a/b/")) (toL ("../x")) = toL ("http://h/a/x") ∧
    urljoinModel (toL ("http://h")) (toL (".git/")) = toL ("http://h/.git/") ∧
    urljoinModel (rstripSlash (toL ("http://h//"))) (toL (".git/HEAD")) =
      toL ("http://h/.git/HEAD") := by
  decide

/-- Validation of the string primitives on concrete inputs. -/
theorem stringModel_validation :
    rstripSlash (toL ("http://h///")) = toL ("http://h") ∧
    splitOnChar '/' (toL ("/a//b")) = [[], toL ("a"), [], toL ("b")] ∧
    splitOnStr (toL ("ref: ")) (toL ("ref: r")) = [[], toL ("r")] ∧
    splitOnStr (toL ("ref: ")) (toL ("ref:r")) = [toL ("ref:r")] ∧
    replaceStr (toL (".pack")) (toL (".idx")) (toL ("x.pack.pack")) = toL ("x.idx.idx") ∧
    osPathJoin (toL ("o")) (toL ("/e/x")) = toL ("/e/x") ∧
    osPathJoin (toL ("o")) (toL (".git/HEAD")) = toL ("o/.git/HEAD") ∧
    osDirname (toL ("o/.git/HEAD")) = toL ("o/.git") ∧
    osDirname (toL ("abc")) = [] ∧
    pyStrip (toL ("  ab c") ++ ['\n']) = toL ("ab c") ∧
    refPatternMatch (toL ("aaaaaaaaaaaaaaaaaaaaaaaaaaaaaaaaaaaaaaaa")) = true ∧
    refPatternMatch (toL ("gggggggggggggggggggggggggggggggggggggggg")) = false ∧
    packEntries (toL ("P aaaaaaaaaaaaaaaaaaaaaaaaaaaaaaaaaaaaaaaa x.pack zz")) =
      [(toL ("aaaaaaaaaaaaaaaaaaaaaaaaaaaaaaaaaaaaaaaa"), toL ("x.pack"))] ∧
    packEntries (toL ("P short f.pack")) = [] := by
  decide
